import Mathlib

/-!
Verification of the QuickPDF client core (src/frontend/src/App.js).

The development embeds, as executable Lean definitions, the parts of the
client that carry the state-machine and validation logic described by the
specification:

* the keep/remove page selector `addPage` (App.js lines 674-786), including
  its tokenizer, token classifier, duplicate filtering and the 50-page cap;
* the swap-pair validation of `handleSubmit` (lines 870-900);
* the merge-failure attribution of `handleSubmit` (lines 946-966);
* the download-URL builders `withQueryParam` / `buildJobDownloadUrl`
  (lines 162-174) and the order of events on the submit success path
  (lines 998-1010);
* the polling loop `pollJobUntilDone` (lines 821-833).

JavaScript strings are modelled as `String` / `List Char`; the JS `Set` of
page strings is modelled as a duplicate-free `List Nat` (every stored value
is `String(n)` for a natural `n`, and `String` is injective on naturals, so
string membership coincides with numeric membership).  `Number(token)` on an
all-digit token is modelled exactly by `digitsToNat` (the JS value is exact
for every realistic token; the float overflow beyond roughly 1.8e308 is not
modelled).  All definitions are structural so that concrete runs reduce in
the kernel.
-/

namespace QuickPDF

/-- One entry of the `selectedPages` React state: `display` is the chip text
(`String(n)` for a single page, the raw token text for a range), `pages` the
pages the group contributes.  The JS object also carries a random `id` used
only as a React key and removal handle; no claim mentions it, so it is not
modelled. -/
structure PageGroup where
  display : String
  pages : List Nat
deriving Repr, DecidableEq

/-- The flattened page list of the accumulated selection, as produced by
`selectedPages.flatMap((group) => group.pages)` in `handleSubmit`. -/
def flatPages (sel : List PageGroup) : List Nat :=
  (sel.map (fun g => g.pages)).flatten

/-- Separator characters of the page-input tokenizer: the input is first
rewritten by `raw.replace(/\s+/g, ',')` and then split on `','`, which is the
same as splitting on commas and whitespace directly. -/
def isSepChar (c : Char) : Bool := c == ',' || c.isWhitespace

/-- Core of a character-predicate splitter: returns the piece before the
first separator and the remaining pieces. -/
def splitSepCore (p : Char → Bool) : List Char → List Char × List (List Char)
  | [] => ([], [])
  | c :: cs =>
    let r := splitSepCore p cs
    if p c then ([], r.1 :: r.2) else (c :: r.1, r.2)

/-- `splitSep p cs` splits `cs` at every character satisfying `p`, keeping
empty pieces, exactly like the JS `String.prototype.split`. -/
def splitSep (p : Char → Bool) (cs : List Char) : List (List Char) :=
  (splitSepCore p cs).1 :: (splitSepCore p cs).2

/-- The tokenizer of `addPage`: split on commas and whitespace and drop the
empty pieces (`.split(',').map(t => t.trim()).filter(Boolean)`; the `trim`
is a no-op because every whitespace run was already replaced by a comma). -/
def tokenize (cs : List Char) : List (List Char) :=
  (splitSep isSepChar cs).filter (fun t => !t.isEmpty)

/-- Leading-whitespace removal, used to model `String.prototype.trim`. -/
def dropLeadingWs : List Char → List Char
  | [] => []
  | c :: cs => if c.isWhitespace then dropLeadingWs cs else c :: cs

/-- `String.prototype.trim` on the character list. -/
def trimChars (cs : List Char) : List Char :=
  ((dropLeadingWs ((dropLeadingWs cs).reverse)).reverse)

/-- The JS trim applied to a `String`. -/
def jsTrim (s : String) : String := ⟨trimChars s.data⟩

/-- The test `/^\d+$/.test(token)`. -/
def isDigits (t : List Char) : Bool := !t.isEmpty && t.all Char.isDigit

/-- Exact value of `Number(token)` for an all-digit token. -/
def digitsToNat (t : List Char) : Nat :=
  t.foldl (fun n c => n * 10 + (c.toNat - 48)) 0

/-- `token.split('-')`, used under the `/^\d+-\d+$/` test. -/
def splitOnDash (t : List Char) : List (List Char) :=
  splitSep (fun c => c == '-') t

/-- The distinct error outcomes of `addPage`; `errorMessage` below maps each
to the string stored into `fieldErrors.pageInput`. -/
inductive AddPageError where
  | invalidPage
  | invalidRange
  | descendingRange
  | unrecognizedToken
  | nothingNew
  | alreadyAddedPage (display : String)
  | alreadyAddedRange (display : String)
  | alreadyAddedMulti
  | tooManyPages (max : Nat)
deriving Repr, DecidableEq

/-- The apostrophe character, kept out of string literals. -/
def apos : String := (Char.ofNat 39).toString

/-- The message set into `fieldErrors.pageInput` for each failure. -/
def errorMessage : AddPageError → String
  | .invalidPage => "Please use positive page numbers (1, 2, 3, etc.)"
  | .invalidRange => "Please use positive page numbers in your range (e.g., 2-6)"
  | .descendingRange => "Range should go from low to high (e.g., 2-6, not 6-2)"
  | .unrecognizedToken => "Try using page numbers or ranges like: 1-5 or 1,3,7-9"
  | .nothingNew => "Nothing new to add!"
  | .alreadyAddedPage d => "Page " ++ d ++ " is already added"
  | .alreadyAddedRange d => "Pages " ++ d ++ " are already added"
  | .alreadyAddedMulti => "These pages are already added"
  | .tooManyPages m => "That" ++ apos ++ "s too many pages! Maximum is " ++ toString m

/-- `true` exactly on the three "already added" rejections. -/
def isAlreadyAddedError : AddPageError → Bool
  | .alreadyAddedPage _ => true
  | .alreadyAddedRange _ => true
  | .alreadyAddedMulti => true
  | _ => false

/-- The state threaded through the token loop of `addPage`:
`groups` is `newPageGroups` and `seen` is the `allNewPages` set (stored in
reverse insertion order; only membership and size are ever used). -/
structure ScanState where
  groups : List PageGroup
  seen : List Nat
deriving Repr, DecidableEq

/-- The empty loop state (`newPageGroups = []`, `allNewPages = new Set()`). -/
def initialScanState : ScanState := ⟨[], []⟩

/-- The inner loop of the range case: walk `i = start .. end`, collecting the
pages not yet in `allNewPages` and adding them to the set; the fuel is
`end + 1 - start`. -/
def collectRangeAux : Nat → Nat → List Nat → List Nat × List Nat
  | 0, _, seen => ([], seen)
  | f + 1, i, seen =>
    if i ∈ seen then collectRangeAux f (i + 1) seen
    else
      let r := collectRangeAux f (i + 1) (i :: seen)
      (i :: r.1, r.2)

/-- `collectRange start end seen` returns the `rangePages` list of the JS
loop together with the updated `allNewPages`. -/
def collectRange (s e : Nat) (seen : List Nat) : List Nat × List Nat :=
  collectRangeAux (e + 1 - s) s seen

/-- Processing of one token of `addPage` (App.js lines 693-746). -/
def processToken (st : ScanState) (t : List Char) : Except AddPageError ScanState :=
  if isDigits t then
    let n := digitsToNat t
    if n < 1 then .error .invalidPage
    else if n ∈ st.seen then .ok st
    else .ok ⟨st.groups ++ [⟨toString n, [n]⟩], n :: st.seen⟩
  else
    match splitOnDash t with
    | [a, b] =>
      if isDigits a && isDigits b then
        let s := digitsToNat a
        let e := digitsToNat b
        if s < 1 || e < 1 then .error .invalidRange
        else if e < s then .error .descendingRange
        else
          let r := collectRange s e st.seen
          if r.1.isEmpty then .ok { st with seen := r.2 }
          else .ok ⟨st.groups ++ [⟨⟨t⟩, r.1⟩], r.2⟩
      else .error .unrecognizedToken
    | _ => .error .unrecognizedToken

/-- The token loop started from an arbitrary state. -/
def scanFrom (st : ScanState) (toks : List (List Char)) :
    Except AddPageError ScanState :=
  toks.foldlM processToken st

/-- The full token loop of `addPage`. -/
def scanTokens (toks : List (List Char)) : Except AddPageError ScanState :=
  scanFrom initialScanState toks

/-- The hard-coded cap of `addPage`
(`const maxOperationPages = 50`, mirroring the backend default
`MAX_OPERATION_PAGES=50`). -/
def maxOperationPages : Nat := 50

/-- Outcome of one `addPage` call: `noInput` is the silent early return on a
blank input, `failed e` an early return that only sets the field error, and
`added gs` the success path appending `gs` to `selectedPages`. -/
inductive AddPageOutcome where
  | noInput
  | failed (e : AddPageError)
  | added (newGroups : List PageGroup)
deriving Repr, DecidableEq

/-- The error chosen when every submitted group is already present
(App.js lines 763-775). -/
def alreadyAddedOutcome : List PageGroup → AddPageOutcome
  | [g] =>
    if g.pages.length = 1 then .failed (.alreadyAddedPage g.display)
    else if 1 < g.pages.length then .failed (.alreadyAddedRange g.display)
    else .failed .alreadyAddedMulti
  | _ => .failed .alreadyAddedMulti

/-- The `filteredGroups` of `addPage`: the submitted groups that contain at
least one page not already in the accumulated selection (`existingPages` is
the set of distinct pages of `selectedPages`, here `(flatPages sel).dedup`). -/
def keptOf (sel : List PageGroup) (st : ScanState) : List PageGroup :=
  st.groups.filter (fun g => g.pages.any (fun p => decide (p ∉ (flatPages sel).dedup)))

/-- The `totalPagesAfter` of `addPage`:
`existingPages.size + allNewPages.size` minus the size of their overlap. -/
def totalAfterOf (sel : List PageGroup) (st : ScanState) : Nat :=
  (flatPages sel).dedup.length + st.seen.length -
    ((flatPages sel).dedup.filter (fun p => decide (p ∈ st.seen))).length

/-- Tail of `addPage` after a successful scan (App.js lines 748-785):
the nothing-new check, the duplicate filtering against the accumulated
selection, the cap check, and the commit. -/
def finishAdd (sel : List PageGroup) (st : ScanState) : AddPageOutcome :=
  if st.groups.isEmpty then .failed .nothingNew
  else if (keptOf sel st).isEmpty then alreadyAddedOutcome st.groups
  else if maxOperationPages < totalAfterOf sel st then
    .failed (.tooManyPages maxOperationPages)
  else .added (keptOf sel st)

/-- The `addPage` handler as a function of the accumulated selection and the
raw text of the page input field. -/
def addPage (sel : List PageGroup) (input : String) : AddPageOutcome :=
  let raw := trimChars input.data
  if raw.isEmpty then .noInput
  else
    match scanTokens (tokenize raw) with
    | .error e => .failed e
    | .ok st => finishAdd sel st

/-- The page-selection React state touched by `addPage`: the accumulated
groups, the text field, and `fieldErrors.pageInput`. -/
structure SelState where
  selectedPages : List PageGroup
  pageInput : String
  pageError : String
deriving Repr, DecidableEq

/-- One `addPage` call as a state transition: a blank input returns before
touching anything, a failure only sets the field error, and a success
appends the kept groups, clears the text field and clears the error. -/
def addPageStep (st : SelState) : SelState :=
  match addPage st.selectedPages st.pageInput with
  | .noInput => st
  | .failed e => { st with pageError := errorMessage e }
  | .added gs => ⟨st.selectedPages ++ gs, "", ""⟩

/-! ## Swap-pair validation (App.js lines 870-900) -/

/-- The two swap field errors set by `handleSubmit` (`fieldErrors.swapLeft`
and `fieldErrors.swapRight`); the empty string means no error. -/
structure SwapErrors where
  swapLeft : String
  swapRight : String
deriving Repr, DecidableEq

/-- `const isValid = (v) => /^\d+$/.test(v) && Number(v) > 0`. -/
def isValidSwapValue (v : String) : Bool :=
  isDigits v.data && decide (0 < digitsToNat v.data)

/-- The swap validation of `handleSubmit`: each side is checked for presence
and positivity, and afterwards the equality check overwrites the right-hand
error whenever both trimmed texts are present and identical. -/
def validateSwap (leftRaw rightRaw : String) : SwapErrors :=
  let left := jsTrim leftRaw
  let right := jsTrim rightRaw
  let eL :=
    if left = "" then "Please enter a page number"
    else if isValidSwapValue left then "" else "Must be a positive number"
  let eR :=
    if right = "" then "Please enter a page number"
    else if isValidSwapValue right then "" else "Must be a positive number"
  let eR :=
    if left ≠ "" ∧ right ≠ "" ∧ left = right then "Must be different from Page A"
    else eR
  ⟨eL, eR⟩

/-- `hasErrors` stays false and the request is sent exactly when both swap
fields validated cleanly. -/
def swapPasses (e : SwapErrors) : Bool :=
  e.swapLeft == "" && e.swapRight == ""

/-- The `pages` form field sent for a swap (`${left},${right}`). -/
def swapPagesField (leftRaw rightRaw : String) : String :=
  jsTrim leftRaw ++ "," ++ jsTrim rightRaw

/-! ## Merge failure attribution (App.js lines 946-966)

The backend is not part of the repository snapshot (only the client is
under src), so the worker-side merge validation is modelled from the
specification; the client-side attribution is embedded from the source. -/

/-- JS `a || b` for an optional string: the fallback is used when the field
is absent or the empty string. -/
def jsOrString (o : Option String) (d : String) : String :=
  match o with
  | some s => if s = "" then d else s
  | none => d

/-- One entry of the `mergeFiles` React state (`id` is the removal handle
used as the key of `mergeFileItemErrors`, `name` the file name). -/
structure MergeFileEntry where
  id : Nat
  name : String
deriving Repr, DecidableEq

/-- The JSON error body of a failed merge request, as read by the client:
`message`, `invalid_index` (0-based) and `invalid_file`. -/
structure MergeErrorResponse where
  message : Option String
  invalid_index : Option Nat
  invalid_file : Option String
deriving Repr, DecidableEq

/-- The `find` fallback on `invalid_file`. -/
def mergeTargetByName (files : List MergeFileEntry) (nm : Option String) :
    Option MergeFileEntry :=
  match nm with
  | some s => files.find? (fun f => f.name == s)
  | none => none

/-- The offending-file lookup of `handleSubmit`:
`(invalidIndex !== null && mergeFiles[invalidIndex]) ||
 (invalidFileName ? mergeFiles.find(...) : null)`. -/
def mergeErrorTarget (files : List MergeFileEntry) (idx : Option Nat)
    (nm : Option String) : Option MergeFileEntry :=
  match idx with
  | some i =>
    match files[i]? with
    | some f => some f
    | none => mergeTargetByName files nm
  | none => mergeTargetByName files nm

/-- The inline error written into `mergeFileItemErrors` (cleared to `{}` at
the start of the submit, so the result is at most one entry, keyed by the
id of the attributed file). -/
def mergeAttribution (files : List MergeFileEntry) (resp : MergeErrorResponse) :
    Option (Nat × String) :=
  (mergeErrorTarget files resp.invalid_index resp.invalid_file).map
    (fun f => (f.id, jsOrString resp.message "File is not a valid PDF."))

/-- One input of a merge job as the worker sees it: its name and whether it
is a well-formed document of the declared type. -/
structure MergeInput where
  name : String
  wellFormed : Bool
deriving Repr, DecidableEq

/-- The structured failure of a merge job (spec section 7: category
`invalid-input` with the offending position). -/
structure MergeFailure where
  category : String
  message : Option String
  invalid_index : Option Nat
  invalid_file : Option String
deriving Repr, DecidableEq

/-- Modelled from the spec: the backend Worker Executor (absent from the
snapshot; spec sections 4.5 step 2 and 6) validates every merge input before
combining and, on the first malformed input, ends the job in `error` with
category `invalid-input`, carrying the 0-based `invalid_index` of the
offending file and its name as `invalid_file`. -/
def workerValidateMerge (inputs : List MergeInput) : Option MergeFailure :=
  match inputs.findIdx? (fun f => !f.wellFormed) with
  | some i =>
    some ⟨"invalid-input", some "File is not a valid PDF.", some i,
      (inputs[i]?).map (fun f => f.name)⟩
  | none => none

/-- Modelled from the spec: the JSON body of the failed request as the
client reads it — the message and the `invalid_index` / `invalid_file`
fields of the structured failure (spec section 6). -/
def mergeFailureResponse (f : MergeFailure) : MergeErrorResponse :=
  ⟨f.message, f.invalid_index, f.invalid_file⟩

/-! ## Download URLs and the submit success path (App.js 162-174, 998-1010) -/

/-- Hexadecimal digit in upper case, as produced by `encodeURIComponent`. -/
def hexDigit (n : Nat) : Char :=
  if n < 10 then Char.ofNat (48 + n) else Char.ofNat (55 + n)

/-- UTF-8 bytes of a code point, for the percent-encoding of
`encodeURIComponent`. -/
def utf8Bytes (n : Nat) : List Nat :=
  if n < 128 then [n]
  else if n < 2048 then [192 + n / 64, 128 + n % 64]
  else if n < 65536 then [224 + n / 4096, 128 + n / 64 % 64, 128 + n % 64]
  else [240 + n / 262144, 128 + n / 4096 % 64, 128 + n / 64 % 64, 128 + n % 64]

/-- The characters `encodeURIComponent` leaves unescaped. -/
def isUnreservedURIChar (c : Char) : Bool :=
  c.isAlpha || c.isDigit || c == '-' || c == '_' || c == '.' || c == '!' ||
    c == '~' || c == '*' || c == Char.ofNat 39 || c == '(' || c == ')'

/-- Percent-encoding of one byte. -/
def percentEncodeByte (b : Nat) : List Char :=
  ['%', hexDigit (b / 16), hexDigit (b % 16)]

/-- `encodeURIComponent`. -/
def encodeURIComponent (s : String) : String :=
  ⟨(s.data.map (fun c =>
      if isUnreservedURIChar c then [c]
      else ((utf8Bytes c.toNat).map percentEncodeByte).flatten)).flatten⟩

/-- `withQueryParam(url, key, value)`: append `key=value` behind `?` or `&`
depending on whether the URL already has a query, returning a falsy URL
unchanged. -/
def withQueryParam (url key value : String) : String :=
  if url = "" then url
  else
    let sep := if '?' ∈ url.data then "&" else "?"
    url ++ sep ++ encodeURIComponent key ++ "=" ++ encodeURIComponent value

/-- `buildJobDownloadUrl({ baseUrl, token, consume })`: forward the token as
a query parameter when present, and add `consume=1` only for the consuming
variant. -/
def buildJobDownloadUrl (baseUrl : String) (token : Option String)
    (consume : Bool) : String :=
  let url := baseUrl
  let url :=
    match token with
    | some t => if t = "" then url else withQueryParam url "token" t
    | none => url
  if consume then withQueryParam url "consume" "1" else url

/-- The observable client events of the submit success path, in program
order. -/
inductive ClientEvent where
  | submitResponse (jobId token : String)
  | jobDone (jobId : String)
  | builtPreviewUrl (url : String)
  | builtDownloadUrl (url : String)
deriving Repr, DecidableEq

/-- The literal order of the success path of `handleSubmit`: the submit
response delivers `job_id` and `download_token` (lines 998-1001, throwing
when the token is missing), then `pollJobUntilDone` returns the finished
job (line 1003), and only then are the preview URL (token without a consume
flag) and the download URL (token plus `consume=1`) constructed
(lines 1005-1006). -/
def handleSubmitSuccessTrace (jobId token baseUrl : String) : List ClientEvent :=
  [.submitResponse jobId token,
   .jobDone jobId,
   .builtPreviewUrl (buildJobDownloadUrl baseUrl (some token) false),
   .builtDownloadUrl (buildJobDownloadUrl baseUrl (some token) true)]

/-- Constructor tests used to locate events in a trace. -/
def isJobDoneEvent : ClientEvent → Bool
  | .jobDone _ => true
  | _ => false

/-- Recognizer of the preview-URL construction event. -/
def isPreviewUrlEvent : ClientEvent → Bool
  | .builtPreviewUrl _ => true
  | _ => false

/-- Recognizer of the download-URL construction event. -/
def isDownloadUrlEvent : ClientEvent → Bool
  | .builtDownloadUrl _ => true
  | _ => false

/-! ## The polling loop `pollJobUntilDone` (App.js lines 821-833) -/

/-- One parsed poll response: the HTTP `response.ok` flag and the fields of
the job record the loop inspects. -/
structure PollResponse where
  ok : Bool
  status : String
  message : Option String
  errorMessage : Option String
deriving Repr, DecidableEq

/-- Result of the loop on a (finite prefix of the) response stream:
`done` is the `return data`, `thrown` an exception, `pending` the case in
which every provided response was non-terminal and the loop would issue a
further poll. -/
inductive PollResult where
  | done (r : PollResponse)
  | thrown (msg : String)
  | pending
deriving Repr, DecidableEq

/-- `const pollMs = 900`. -/
def pollMs : Nat := 900

/-- The loop body, paired with the number of `setTimeout(pollMs)` delays
taken: a non-ok response throws, `done` returns the record, `error` throws
the job error message, and anything else sleeps and polls again. -/
def pollLoop : List PollResponse → PollResult × Nat
  | [] => (.pending, 0)
  | r :: rest =>
    if r.ok = false then
      (.thrown (jsOrString r.message "Unable to check job status."), 0)
    else if r.status = "done" then (.done r, 0)
    else if r.status = "error" then
      (.thrown (jsOrString r.errorMessage
        "Something went wrong while processing your PDF."), 0)
    else
      let x := pollLoop rest
      (x.1, x.2 + 1)

/-! ## Lemmas about the splitter and the tokenizer -/

theorem splitSepCore_all_false {p : Char → Bool} {cs : List Char}
    (h : ∀ c ∈ cs, p c = false) : splitSepCore p cs = (cs, []) := by
  induction cs with
  | nil => rfl
  | cons c cs ih =>
    have hc := h c (List.mem_cons_self _ _)
    have hcs := ih (fun x hx => h x (List.mem_cons_of_mem _ hx))
    simp [splitSepCore, hcs, hc]

theorem splitSepCore_sep_free {p : Char → Bool} {d : Char} (hd : p d = true)
    {b : List Char} (hb : ∀ c ∈ b, p c = false) :
    ∀ {a : List Char}, (∀ c ∈ a, p c = false) →
      splitSepCore p (a ++ d :: b) = (a, [b]) := by
  intro a
  induction a with
  | nil =>
    intro _
    simp [splitSepCore, hd, splitSepCore_all_false hb]
  | cons c a ih =>
    intro ha
    have hc := ha c (List.mem_cons_self _ _)
    have := ih (fun x hx => ha x (List.mem_cons_of_mem _ hx))
    simp [splitSepCore, this, hc]

/-- A separator-free decomposition splits into exactly its two halves, like
the JS `token.split('-')` on a token matching the range pattern. -/
theorem splitSep_sep_free {p : Char → Bool} {d : Char} (hd : p d = true)
    {a b : List Char} (ha : ∀ c ∈ a, p c = false) (hb : ∀ c ∈ b, p c = false) :
    splitSep p (a ++ d :: b) = [a, b] := by
  simp [splitSep, splitSepCore_sep_free hd hb ha]

theorem splitSepCore_no_sep {p : Char → Bool} :
    ∀ {cs x : List Char}, splitSepCore p cs = (x, []) → cs = x := by
  intro cs
  induction cs with
  | nil => intro x h; simpa [splitSepCore] using congrArg Prod.fst h
  | cons c cs ih =>
    intro x h
    rcases hr : splitSepCore p cs with ⟨r1, r2⟩
    by_cases hc : p c
    · simp [splitSepCore, hr, hc] at h
    · simp [splitSepCore, hr, hc] at h
      obtain ⟨h1, h2⟩ := h
      have := ih (x := r1) (by rw [hr, h2])
      rw [← h1, this]

/-- If the splitter produced exactly two pieces, the input was the two
pieces around one separator character. -/
theorem splitSepCore_two {p : Char → Bool} :
    ∀ {cs a b : List Char}, splitSepCore p cs = (a, [b]) →
      ∃ d, p d = true ∧ cs = a ++ d :: b := by
  intro cs
  induction cs with
  | nil => intro a b h; simp [splitSepCore] at h
  | cons c cs ih =>
    intro a b h
    rcases hr : splitSepCore p cs with ⟨r1, r2⟩
    by_cases hc : p c
    · simp [splitSepCore, hr, hc] at h
      obtain ⟨ha, hb1, hb2⟩ := h
      have hcs : cs = b := by
        have := @splitSepCore_no_sep p cs r1 (by rw [hr, hb2])
        rw [this, hb1]
      exact ⟨c, hc, by simp [← ha, hcs]⟩
    · simp [splitSepCore, hr, hc] at h
      obtain ⟨ha, hb⟩ := h
      obtain ⟨d, hd, hcs⟩ := ih (a := r1) (b := b) (by rw [hr, hb])
      exact ⟨d, hd, by rw [← ha, hcs]; rfl⟩

theorem splitSepCore_flatten {p : Char → Bool} :
    ∀ cs : List Char,
      (splitSepCore p cs).1 ++ (splitSepCore p cs).2.flatten =
        cs.filter (fun c => !p c) := by
  intro cs
  induction cs with
  | nil => rfl
  | cons c cs ih =>
    by_cases hc : p c
    · simp [splitSepCore, hc, List.filter_cons, ih]
    · simp [splitSepCore, hc, List.filter_cons, ih]

theorem splitSepCore_pieces {p : Char → Bool} :
    ∀ cs : List Char,
      (∀ c ∈ (splitSepCore p cs).1, p c = false) ∧
        (∀ u ∈ (splitSepCore p cs).2, ∀ c ∈ u, p c = false) := by
  intro cs
  induction cs with
  | nil =>
    constructor
    · intro c h; cases h
    · intro u h; cases h
  | cons c cs ih =>
    rcases hr : splitSepCore p cs with ⟨r1, r2⟩
    rw [hr] at ih
    by_cases hc : p c
    · constructor
      · simp [splitSepCore, hr, hc]
      · intro u hu
        simp only [splitSepCore, hr, hc, if_true] at hu
        rcases List.mem_cons.mp hu with hu | hu
        · intro x hx; rw [hu] at hx; exact ih.1 x hx
        · exact ih.2 u hu
    · constructor
      · intro x hx
        simp only [splitSepCore, hr, hc, if_false, Bool.false_eq_true] at hx
        rcases List.mem_cons.mp hx with hx | hx
        · rw [hx]; simpa using hc
        · exact ih.1 x hx
      · intro u hu
        simp only [splitSepCore, hr, hc, if_false, Bool.false_eq_true] at hu
        exact ih.2 u hu

theorem flatten_filter_nonempty :
    ∀ l : List (List Char), (l.filter (fun t => !t.isEmpty)).flatten = l.flatten := by
  intro l
  induction l with
  | nil => rfl
  | cons t l ih =>
    cases t with
    | nil => simpa [List.filter_cons] using ih
    | cons c t => simp [List.filter_cons, ih]

/-- Joining all tokens back together yields exactly the non-separator
characters of the input, in order: the tokenizer splits on commas and
whitespace and loses nothing else. -/
theorem tokenize_flatten (cs : List Char) :
    (tokenize cs).flatten = cs.filter (fun c => !isSepChar c) := by
  rw [tokenize, flatten_filter_nonempty, splitSep]
  simpa using splitSepCore_flatten (p := isSepChar) cs

/-- Every token is nonempty and free of commas and whitespace. -/
theorem tokenize_mem (t : List Char) (cs : List Char) (h : t ∈ tokenize cs) :
    t ≠ [] ∧ ∀ c ∈ t, isSepChar c = false := by
  rw [tokenize] at h
  have hmem := List.mem_of_mem_filter h
  have hne : t ≠ [] := by
    have := List.of_mem_filter h
    simpa using this
  refine ⟨hne, ?_⟩
  rw [splitSep] at hmem
  rcases List.mem_cons.mp hmem with hmem | hmem
  · intro c hc; rw [hmem] at hc; exact (splitSepCore_pieces cs).1 c hc
  · exact (splitSepCore_pieces cs).2 t hmem

/-! ## Lemmas about the token loop -/

theorem scanFrom_nil (st : ScanState) : scanFrom st [] = .ok st := rfl

theorem scanFrom_cons (st : ScanState) (t : List Char) (ts : List (List Char)) :
    scanFrom st (t :: ts) =
      (processToken st t).bind (fun st1 => scanFrom st1 ts) := by
  simp [scanFrom, List.foldlM_cons]
  rfl

theorem scanFrom_append (st : ScanState) (l1 l2 : List (List Char)) :
    scanFrom st (l1 ++ l2) =
      (scanFrom st l1).bind (fun st1 => scanFrom st1 l2) := by
  simp [scanFrom, List.foldlM_append]
  rfl

/-- Invariant propagation along a successful scan. -/
theorem scanFrom_inv {P : ScanState → Prop}
    (step : ∀ st t st', processToken st t = .ok st' → P st → P st') :
    ∀ (toks : List (List Char)) (st st' : ScanState),
      scanFrom st toks = .ok st' → P st → P st' := by
  intro toks
  induction toks with
  | nil =>
    intro st st' h hP
    rw [scanFrom_nil] at h
    cases h
    exact hP
  | cons t ts ih =>
    intro st st' h hP
    rw [scanFrom_cons] at h
    cases hpt : processToken st t with
    | error e => rw [hpt] at h; cases h
    | ok st1 =>
      rw [hpt] at h
      exact ih st1 st' h (step st t st1 hpt hP)

theorem collectRangeAux_snd_nodup :
    ∀ (f i : Nat) (seen : List Nat), seen.Nodup →
      (collectRangeAux f i seen).2.Nodup := by
  intro f
  induction f with
  | zero => intro i seen h; exact h
  | succ f ih =>
    intro i seen h
    by_cases hm : i ∈ seen
    · simpa [collectRangeAux, hm] using ih (i + 1) seen h
    · simpa [collectRangeAux, hm] using
        ih (i + 1) (i :: seen) (List.nodup_cons.mpr ⟨hm, h⟩)

theorem processToken_seen_nodup {st : ScanState} {t : List Char} {st' : ScanState}
    (h : processToken st t = .ok st') (hn : st.seen.Nodup) : st'.seen.Nodup := by
  simp only [processToken] at h
  split at h
  · -- single-page branch
    split at h
    · exact Except.noConfusion h
    · split at h
      · cases h; exact hn
      · rename_i h2
        cases h
        exact List.nodup_cons.mpr ⟨h2, hn⟩
  · -- range / unrecognized branch
    split at h
    · split at h
      · split at h
        · exact Except.noConfusion h
        · split at h
          · exact Except.noConfusion h
          · split at h
            · cases h; exact collectRangeAux_snd_nodup _ _ _ hn
            · cases h; exact collectRangeAux_snd_nodup _ _ _ hn
      · exact Except.noConfusion h
    · exact Except.noConfusion h

/-- A successful scan of the whole submission leaves `allNewPages` free of
duplicates, so its length is the number of distinct new pages. -/
theorem scanTokens_seen_nodup {toks : List (List Char)} {st : ScanState}
    (h : scanTokens toks = .ok st) : st.seen.Nodup := by
  exact scanFrom_inv (P := fun s => s.seen.Nodup)
    (fun _ _ _ hpt hP => processToken_seen_nodup hpt hP) toks initialScanState st h
    List.nodup_nil

/-! ## Counting distinct pages -/

theorem isEmpty_false_of_ne_nil {α : Type} {l : List α} (h : l ≠ []) :
    l.isEmpty = false := by
  cases l with
  | nil => exact absurd rfl h
  | cons a l => rfl

theorem ne_nil_of_isEmpty_false {α : Type} {l : List α} (h : l.isEmpty = false) :
    l ≠ [] := by
  cases l with
  | nil => simp at h
  | cons a l => simp

/-- The inclusion-exclusion count computed by `addPage`
(`existingPages.size + allNewPages.size - |overlap|`) is exactly the number
of distinct pages of the union. -/
theorem totalAfter_eq_distinct_card (A B : List Nat) (hB : B.Nodup) :
    A.dedup.length + B.length -
      (A.dedup.filter (fun p => decide (p ∈ B))).length =
    (A ++ B).dedup.length := by
  classical
  have hAset : A.dedup.toFinset = A.toFinset := by
    apply List.toFinset.ext
    intro x
    exact List.mem_dedup
  have c1 : A.dedup.length = A.toFinset.card := by
    rw [← hAset, List.toFinset_card_of_nodup (List.nodup_dedup A)]
  have c2 : B.length = B.toFinset.card := by
    rw [List.toFinset_card_of_nodup hB]
  have c3 : (A.dedup.filter (fun p => decide (p ∈ B))).length =
      (A.toFinset ∩ B.toFinset).card := by
    rw [← List.toFinset_card_of_nodup (List.Nodup.filter _ (List.nodup_dedup A))]
    congr 1
    rw [List.toFinset_filter, hAset, ← Finset.filter_mem_eq_inter]
    apply Finset.filter_congr
    intro x _
    simp
  have c4 : (A ++ B).dedup.length = (A.toFinset ∪ B.toFinset).card := by
    have h1 : (A ++ B).dedup.toFinset = (A ++ B).toFinset := by
      apply List.toFinset.ext
      intro x
      exact List.mem_dedup
    rw [← List.toFinset_append, ← h1,
      List.toFinset_card_of_nodup (List.nodup_dedup _)]
  have key := Finset.card_union_add_card_inter A.toFinset B.toFinset
  have hle : (A.toFinset ∩ B.toFinset).card ≤ A.toFinset.card :=
    Finset.card_le_card Finset.inter_subset_left
  omega

/-! ## Unfolding lemmas for addPage -/

theorem addPageStep_failed {st : SelState} {e : AddPageError}
    (h : addPage st.selectedPages st.pageInput = .failed e) :
    addPageStep st = { st with pageError := errorMessage e } := by
  simp [addPageStep, h]

theorem addPageStep_added {st : SelState} {gs : List PageGroup}
    (h : addPage st.selectedPages st.pageInput = .added gs) :
    addPageStep st = ⟨st.selectedPages ++ gs, "", ""⟩ := by
  simp [addPageStep, h]

theorem tokenize_nil : tokenize [] = [] := rfl

/-- If a successful scan produced any group, the trimmed input was not
blank. -/
theorem trim_ne_of_groups {input : String} {st : ScanState}
    (hscan : scanTokens (tokenize (trimChars input.data)) = .ok st)
    (hg : st.groups ≠ []) : (trimChars input.data).isEmpty = false := by
  cases he : trimChars input.data with
  | nil =>
    rw [he, tokenize_nil] at hscan
    have hst : initialScanState = st := by
      have h2 := hscan
      rw [scanTokens, scanFrom_nil] at h2
      exact Except.ok.inj h2
    rw [← hst] at hg
    exact absurd rfl hg
  | cons c cs => rfl

theorem addPage_eq_finishAdd {sel : List PageGroup} {input : String} {st : ScanState}
    (hne : (trimChars input.data).isEmpty = false)
    (hscan : scanTokens (tokenize (trimChars input.data)) = .ok st) :
    addPage sel input = finishAdd sel st := by
  unfold addPage
  simp [hne, hscan]

theorem addPage_eq_failed_of_scan {sel : List PageGroup} {input : String}
    {e : AddPageError}
    (hne : (trimChars input.data).isEmpty = false)
    (hscan : scanTokens (tokenize (trimChars input.data)) = .error e) :
    addPage sel input = .failed e := by
  unfold addPage
  simp [hne, hscan]

theorem alreadyAddedOutcome_spec (gl : List PageGroup) :
    ∃ e, alreadyAddedOutcome gl = .failed e ∧ isAlreadyAddedError e = true := by
  match gl with
  | [] => exact ⟨.alreadyAddedMulti, rfl, rfl⟩
  | [g] =>
    by_cases h1 : g.pages.length = 1
    · exact ⟨.alreadyAddedPage g.display, by simp [alreadyAddedOutcome, h1], rfl⟩
    · by_cases h2 : 1 < g.pages.length
      · exact ⟨.alreadyAddedRange g.display, by simp [alreadyAddedOutcome, h1, h2], rfl⟩
      · exact ⟨.alreadyAddedMulti, by simp [alreadyAddedOutcome, h1, h2], rfl⟩
  | g1 :: g2 :: gl => exact ⟨.alreadyAddedMulti, rfl, rfl⟩

/-- When every page of every submitted group is already selected, the
duplicate filter drops everything and `addPage` fails with one of the
"already added" errors. -/
theorem finishAdd_all_present {sel : List PageGroup} {st : ScanState}
    (hg : st.groups ≠ [])
    (hall : ∀ g ∈ st.groups, ∀ p ∈ g.pages, p ∈ flatPages sel) :
    ∃ e, finishAdd sel st = .failed e ∧ isAlreadyAddedError e = true := by
  have hkept : keptOf sel st = [] := by
    apply List.filter_eq_nil_iff.mpr
    intro g hgmem
    intro hany
    obtain ⟨p, hp, hnot⟩ := List.any_eq_true.mp hany
    have hmem : p ∈ (flatPages sel).dedup :=
      List.mem_dedup.mpr (hall g hgmem p hp)
    simp [hmem] at hnot
  obtain ⟨e, he, hae⟩ := alreadyAddedOutcome_spec st.groups
  refine ⟨e, ?_, hae⟩
  rw [finishAdd, isEmpty_false_of_ne_nil hg, hkept]
  simpa using he

/-- When some submitted page is new but the union of existing and submitted
pages exceeds the cap, `addPage` fails with the too-many-pages error. -/
theorem finishAdd_too_many {sel : List PageGroup} {st : ScanState}
    (hkept : keptOf sel st ≠ [])
    (hcap : maxOperationPages < totalAfterOf sel st) :
    finishAdd sel st = .failed (.tooManyPages maxOperationPages) := by
  have hg : st.groups ≠ [] := by
    obtain ⟨g, hgmem⟩ := List.exists_mem_of_ne_nil _ hkept
    have := List.mem_of_mem_filter hgmem
    exact List.ne_nil_of_mem this
  rw [finishAdd, isEmpty_false_of_ne_nil hg, isEmpty_false_of_ne_nil hkept]
  simp [hcap]

/-- Inversion of the success path of `addPage`: the committed groups are
exactly the parsed groups that passed the duplicate filter, and the cap was
respected. -/
theorem addPage_added_inv {sel : List PageGroup} {input : String}
    {gs : List PageGroup} (h : addPage sel input = .added gs) :
    (trimChars input.data).isEmpty = false ∧
    ∃ st, scanTokens (tokenize (trimChars input.data)) = .ok st ∧
      st.groups ≠ [] ∧ gs = keptOf sel st ∧ gs ≠ [] ∧
      totalAfterOf sel st ≤ maxOperationPages := by
  simp only [addPage] at h
  split at h
  · exact AddPageOutcome.noConfusion h
  · rename_i hne
    split at h
    · exact AddPageOutcome.noConfusion h
    · rename_i st heq
      have hne2 : (trimChars input.data).isEmpty = false := by
        simpa using hne
      refine ⟨hne2, st, heq, ?_⟩
      unfold finishAdd at h
      split at h
      · exact AddPageOutcome.noConfusion h
      · rename_i hgroups
        split at h
        · obtain ⟨e, he, _⟩ := alreadyAddedOutcome_spec st.groups
          rw [he] at h
          exact AddPageOutcome.noConfusion h
        · rename_i hkeptE
          split at h
          · exact AddPageOutcome.noConfusion h
          · rename_i hcap
            have hgs := AddPageOutcome.added.inj h
            refine ⟨?_, hgs.symm, ?_, ?_⟩
            · intro hcon
              rw [hcon] at hgroups
              exact hgroups rfl
            · rw [← hgs]
              intro hcon
              rw [hcon] at hkeptE
              exact hkeptE rfl
            · exact Nat.le_of_not_lt hcap

/-! ## Lemmas about the polling loop -/

theorem pollLoop_done_inv :
    ∀ (rs : List PollResponse) (d : PollResponse) (n : Nat),
      pollLoop rs = (.done d, n) → d.status = "done" ∧ d.ok = true := by
  intro rs
  induction rs with
  | nil => intro d n h; simp [pollLoop] at h
  | cons r rs ih =>
    intro d n h
    by_cases h1 : r.ok = false
    · simp [pollLoop, h1] at h
    · have hok : r.ok = true := by
        revert h1; cases r.ok <;> simp
      by_cases h2 : r.status = "done"
      · simp [pollLoop, h1, h2] at h
        obtain ⟨hd, _⟩ := h
        exact ⟨by rw [← hd, h2], by rw [← hd, hok]⟩
      · by_cases h3 : r.status = "error"
        · simp [pollLoop, h1, h2, h3] at h
        · simp [pollLoop, h1, h2, h3] at h
          have hp : pollLoop rs = (.done d, (pollLoop rs).2) := by
            rw [← h.1]
          exact ih d (pollLoop rs).2 hp

theorem pollLoop_all_pending :
    ∀ rs : List PollResponse,
      (∀ x ∈ rs, x.ok = true ∧ x.status ≠ "done" ∧ x.status ≠ "error") →
      pollLoop rs = (.pending, rs.length) := by
  intro rs
  induction rs with
  | nil => intro _; rfl
  | cons r rs ih =>
    intro h
    obtain ⟨hok, h2, h3⟩ := h r (List.mem_cons_self _ _)
    have h1 : ¬ r.ok = false := by rw [hok]; simp
    simp [pollLoop, h1, h2, h3, ih (fun x hx => h x (List.mem_cons_of_mem _ hx))]

/-! ## Lemmas about findIdx? and the merge model -/

theorem findIdx?_from {α : Type} (p : α → Bool) :
    ∀ (l : List α) (i s : Nat) (v : α),
      (∀ j x, j < i → l[j]? = some x → p x = false) →
      l[i]? = some v → p v = true → List.findIdx? p l s = some (s + i) := by
  intro l
  induction l with
  | nil => intro i s v _ hi _; simp at hi
  | cons a l ih =>
    intro i s v hbef hi hp
    cases i with
    | zero =>
      have ha : a = v := by simpa using hi
      rw [List.findIdx?_cons, ha, hp]
      simp
    | succ i2 =>
      have ha : p a = false := hbef 0 a (Nat.zero_lt_succ _) (by simp)
      rw [List.findIdx?_cons, ha]
      simp only [Bool.false_eq_true, if_false]
      have hstep := ih i2 (s + 1) v
        (fun j x hj hx => hbef (j + 1) x (Nat.succ_lt_succ hj) (by simpa using hx))
        (by simpa using hi) hp
      rw [hstep]
      congr 1
      omega

/-! ## String-building lemmas for the download URLs -/

theorem string_append_assoc (a b c : String) : a ++ b ++ c = a ++ (b ++ c) := by
  apply String.ext
  simp [String.data_append, List.append_assoc]

theorem withQueryParam_token (base token : String) (hbase : base ≠ "")
    (hq : '?' ∉ base.data) :
    withQueryParam base "token" token =
      base ++ "?token=" ++ encodeURIComponent token := by
  rw [withQueryParam, if_neg hbase]
  have hsep : (if '?' ∈ base.data then "&" else "?") = "?" := if_neg hq
  simp only [hsep]
  rw [show encodeURIComponent "token" = "token" from rfl]
  rw [string_append_assoc base "?" "token"]
  rw [show ("?" ++ "token" : String) = "?token" from rfl]
  rw [string_append_assoc base "?token" "="]
  rw [show ("?token" ++ "=" : String) = "?token=" from rfl]

theorem withQueryParam_consume (u : String) (hu : u ≠ "") (hq : '?' ∈ u.data) :
    withQueryParam u "consume" "1" = u ++ "&consume=1" := by
  rw [withQueryParam, if_neg hu]
  have hsep : (if '?' ∈ u.data then "&" else "?") = "&" := if_pos hq
  simp only [hsep]
  rw [show encodeURIComponent "consume" = "consume" from rfl]
  rw [show encodeURIComponent "1" = "1" from rfl]
  rw [string_append_assoc u "&" "consume"]
  rw [show ("&" ++ "consume" : String) = "&consume" from rfl]
  rw [string_append_assoc u "&consume" "="]
  rw [show ("&consume" ++ "=" : String) = "&consume=" from rfl]
  rw [string_append_assoc u "&consume=" "1"]
  rw [show ("&consume=" ++ "1" : String) = "&consume=1" from rfl]

/-! ## The claims -/

/-- C10: page-selection parsing is all-or-nothing per submission.  Whenever
`addPage` fails (invalid token, non-positive page, descending range, nothing
new, already added, or the cap), the accumulated selection is left completely
unchanged, the input text is retained rather than cleared, and only the field
error is set to the failure message. -/
theorem addPage_all_or_nothing (st : SelState) (e : AddPageError)
    (h : addPage st.selectedPages st.pageInput = .failed e) :
    addPageStep st = { st with pageError := errorMessage e } ∧
    (addPageStep st).selectedPages = st.selectedPages ∧
    (addPageStep st).pageInput = st.pageInput := by
  have h1 := addPageStep_failed h
  exact ⟨h1, by rw [h1], by rw [h1]⟩

/-- Witness for C10: the submission `"2, x"` over the selection `{9}` has a
valid leading token `2`; the parse fails on `x`, the valid prefix is not
committed, and the input text survives. -/
theorem addPage_all_or_nothing_witness :
    addPage [⟨"9", [9]⟩] "2, x" = .failed .unrecognizedToken ∧
    addPageStep ⟨[⟨"9", [9]⟩], "2, x", ""⟩ =
      ⟨[⟨"9", [9]⟩], "2, x",
        "Try using page numbers or ranges like: 1-5 or 1,3,7-9"⟩ := by
  have h := addPage_all_or_nothing ⟨[⟨"9", [9]⟩], "2, x", ""⟩
    .unrecognizedToken (by decide)
  exact ⟨by decide, h.1⟩

/-- C3 counterexample: the claim says a swap with equal page numbers always
fails with the "must be different" condition, but the code compares the
trimmed input strings, so the equal page numbers written `"4"` and `"04"`
pass validation and the submission proceeds with `pages = "4,04"`. -/
theorem swap_equal_numbers_counterexample :
    digitsToNat (jsTrim "4").data = digitsToNat (jsTrim "04").data ∧
    isValidSwapValue (jsTrim "4") = true ∧
    isValidSwapValue (jsTrim "04") = true ∧
    validateSwap "4" "04" = ⟨"", ""⟩ ∧
    swapPasses (validateSwap "4" "04") = true ∧
    swapPagesField "4" "04" = "4,04" := by
  decide

/-- C3 (amended): exactly two positive integer texts are required, and the
three failure modes (missing value, non-numeric value, equal values) carry
three pairwise distinct error messages; a swap whose two trimmed texts are
identical always fails with the "must be different" condition and never
passes validation.  (Equality is textual: equal numbers written differently,
such as `4` and `04`, are not caught — see the counterexample.) -/
theorem swap_validation_errors (l r : String) :
    (validateSwap "" r).swapLeft = "Please enter a page number" ∧
    (validateSwap l "").swapRight = "Please enter a page number" ∧
    (jsTrim l ≠ "" → isValidSwapValue (jsTrim l) = false →
      (validateSwap l r).swapLeft = "Must be a positive number") ∧
    (jsTrim l ≠ "" → jsTrim l = jsTrim r →
      (validateSwap l r).swapRight = "Must be different from Page A" ∧
      swapPasses (validateSwap l r) = false) ∧
    ("Please enter a page number" ≠ "Must be a positive number" ∧
      "Please enter a page number" ≠ "Must be different from Page A" ∧
      "Must be a positive number" ≠ "Must be different from Page A") := by
  refine ⟨?_, ?_, ?_, ?_, by decide⟩
  · have h0 : jsTrim "" = "" := rfl
    simp [validateSwap, h0]
  · have h0 : jsTrim "" = "" := rfl
    simp [validateSwap, h0]
  · intro hl hv
    simp [validateSwap, hl, hv]
  · intro hl heq
    have hr : jsTrim r ≠ "" := by rw [← heq]; exact hl
    constructor
    · simp [validateSwap, hl, hr, heq]
    · simp [swapPasses, validateSwap, hl, hr, heq]

/-- Witness for C3: the equal (and non-numeric) texts `"abc"`/`"abc"` produce
both the positivity error on the left and the must-be-different error on the
right, and the submission does not pass. -/
theorem swap_validation_errors_witness :
    (validateSwap "abc" "abc").swapLeft = "Must be a positive number" ∧
    (validateSwap "abc" "abc").swapRight = "Must be different from Page A" ∧
    swapPasses (validateSwap "abc" "abc") = false := by
  have h := swap_validation_errors "abc" "abc"
  refine ⟨h.2.2.1 (by decide) (by decide), ?_, ?_⟩
  · exact (h.2.2.2.1 (by decide) (by decide)).1
  · exact (h.2.2.2.1 (by decide) (by decide)).2

/-- C9: the polling loop returns the job record exactly when an (HTTP-ok)
poll reports status `done`, raises exactly when a poll reports `error`, and
on any other reported status takes one `pollMs = 900` millisecond delay
(under one second) and polls again; it terminates only on a terminal
status — a stream of non-terminal responses keeps it polling. -/
theorem poll_until_terminal (r : PollResponse) (rest : List PollResponse)
    (hok : r.ok = true) :
    (r.status = "done" → pollLoop (r :: rest) = (.done r, 0)) ∧
    (r.status = "error" → pollLoop (r :: rest) =
      (.thrown (jsOrString r.errorMessage
        "Something went wrong while processing your PDF."), 0)) ∧
    (r.status ≠ "done" → r.status ≠ "error" →
      pollLoop (r :: rest) = ((pollLoop rest).1, (pollLoop rest).2 + 1)) ∧
    pollMs = 900 ∧ pollMs < 1000 ∧
    (∀ (rs : List PollResponse) (d : PollResponse) (n : Nat),
      pollLoop rs = (.done d, n) → d.status = "done" ∧ d.ok = true) ∧
    (∀ rs : List PollResponse,
      (∀ x ∈ rs, x.ok = true ∧ x.status ≠ "done" ∧ x.status ≠ "error") →
      pollLoop rs = (.pending, rs.length)) := by
  have h1 : ¬ r.ok = false := by rw [hok]; simp
  refine ⟨?_, ?_, ?_, rfl, by decide, pollLoop_done_inv, pollLoop_all_pending⟩
  · intro hs; simp [pollLoop, h1, hs]
  · intro hs; simp [pollLoop, h1, hs]
  · intro hd he; simp [pollLoop, h1, hd, he]

/-- Witness for C9: a `done` response is returned immediately, and the delay
constant is sub-second. -/
theorem poll_until_terminal_witness :
    pollLoop [⟨true, "done", none, none⟩] =
      (.done ⟨true, "done", none, none⟩, 0) ∧ pollMs < 1000 := by
  have h := poll_until_terminal ⟨true, "done", none, none⟩ [] rfl
  exact ⟨h.1 rfl, h.2.2.2.2.1⟩

/-- C8 counterexample: the claim says both download URLs are constructed
before the job has finished, but on the success path of `handleSubmit` the
poll that reports `done` (index 1 of the event trace) strictly precedes the
construction of the preview URL (index 2) and of the consuming download URL
(index 3). -/
theorem urls_built_after_done_counterexample :
    (handleSubmitSuccessTrace "job-1" "tok123" "/api/jobs/job-1/download").findIdx
        isJobDoneEvent = 1 ∧
    (handleSubmitSuccessTrace "job-1" "tok123" "/api/jobs/job-1/download").findIdx
        isPreviewUrlEvent = 2 ∧
    (handleSubmitSuccessTrace "job-1" "tok123" "/api/jobs/job-1/download").findIdx
        isDownloadUrlEvent = 3 := by
  decide

/-- C8 (amended): the download token is delivered in the submit response,
before any poll; after polling reports the job done, the client constructs
from that single token both the non-consuming preview URL — the token
forwarded as a query parameter with no consume flag — and the consuming
download URL — the token plus `consume=1`. -/
theorem download_urls_from_token (jobId token base : String)
    (htok : token ≠ "") (hbase : base ≠ "") (hq : '?' ∉ base.data) :
    handleSubmitSuccessTrace jobId token base =
      [.submitResponse jobId token, .jobDone jobId,
       .builtPreviewUrl (base ++ "?token=" ++ encodeURIComponent token),
       .builtDownloadUrl
         (base ++ "?token=" ++ encodeURIComponent token ++ "&consume=1")] := by
  have hprev : buildJobDownloadUrl base (some token) false =
      base ++ "?token=" ++ encodeURIComponent token := by
    rw [show buildJobDownloadUrl base (some token) false =
        (if token = "" then base else withQueryParam base "token" token) from rfl]
    rw [if_neg htok, withQueryParam_token base token hbase hq]
  have huq : '?' ∈ (withQueryParam base "token" token).data := by
    rw [withQueryParam_token base token hbase hq]
    rw [String.data_append, String.data_append]
    apply List.mem_append_left
    apply List.mem_append_right
    decide
  have hu : withQueryParam base "token" token ≠ "" := by
    intro hcon
    rw [hcon] at huq
    exact absurd huq (by decide)
  have hdl : buildJobDownloadUrl base (some token) true =
      base ++ "?token=" ++ encodeURIComponent token ++ "&consume=1" := by
    rw [show buildJobDownloadUrl base (some token) true =
        withQueryParam
          (if token = "" then base else withQueryParam base "token" token)
          "consume" "1" from rfl]
    rw [if_neg htok, withQueryParam_consume _ hu huq,
      withQueryParam_token base token hbase hq]
  rw [handleSubmitSuccessTrace, hprev, hdl]

/-- Witness for C8: a concrete submit response token and base URL produce
exactly the two expected URLs, with the construction events after the done
event. -/
theorem download_urls_from_token_witness :
    handleSubmitSuccessTrace "job-7" "tok" "/api/jobs/job-7/download" =
      [.submitResponse "job-7" "tok", .jobDone "job-7",
       .builtPreviewUrl "/api/jobs/job-7/download?token=tok",
       .builtDownloadUrl "/api/jobs/job-7/download?token=tok&consume=1"] := by
  have h := download_urls_from_token "job-7" "tok" "/api/jobs/job-7/download"
    (by decide) (by decide) (by decide)
  rw [h]
  decide

/-- C5: when the worker rejects a merge because input `i` is the first
malformed file, the error response carries category `invalid-input`, the
0-based `invalid_index = i` and the offending file name, and the client
writes the inline error exactly onto the file at position `i` of the
submitted merge list.  The worker side is modelled from the spec (the
backend is not part of the snapshot); the attribution is the code of
`handleSubmit`. -/
theorem merge_error_attribution (inputs : List MergeInput)
    (files : List MergeFileEntry) (i : Nat) (inp : MergeInput)
    (fentry : MergeFileEntry)
    (hbefore : ∀ j x, j < i → inputs[j]? = some x → x.wellFormed = true)
    (hi : inputs[i]? = some inp) (hbad : inp.wellFormed = false)
    (hfi : files[i]? = some fentry) :
    ∃ fail, workerValidateMerge inputs = some fail ∧
      fail.category = "invalid-input" ∧
      fail.invalid_index = some i ∧
      fail.invalid_file = some inp.name ∧
      mergeAttribution files (mergeFailureResponse fail) =
        some (fentry.id, "File is not a valid PDF.") := by
  have hfind : inputs.findIdx? (fun f => !f.wellFormed) = some i := by
    have h := findIdx?_from (fun f => !f.wellFormed) inputs i 0 inp
      (fun j x hj hx => by simp [hbefore j x hj hx])
      hi (by simp [hbad])
    simpa using h
  refine ⟨⟨"invalid-input", some "File is not a valid PDF.", some i,
    (inputs[i]?).map (fun f => f.name)⟩, ?_, rfl, rfl, ?_, ?_⟩
  · rw [workerValidateMerge.eq_def, hfind]
  · simp [hi]
  · simp [mergeAttribution, mergeFailureResponse, mergeErrorTarget, hfi, jsOrString]

/-- Witness for C5: the spec scenario — three files with file 2 (0-based
index 1) malformed — yields `invalid_index = 1` and the inline error lands
on the client entry with id 11, the file at position 1. -/
theorem merge_error_attribution_witness :
    ∃ fail,
      workerValidateMerge
        [⟨"a.pdf", true⟩, ⟨"b.txt", false⟩, ⟨"c.pdf", true⟩] = some fail ∧
      fail.category = "invalid-input" ∧
      fail.invalid_index = some 1 ∧
      fail.invalid_file = some (MergeInput.name ⟨"b.txt", false⟩) ∧
      mergeAttribution
        [⟨10, "a.pdf"⟩, ⟨11, "b.txt"⟩, ⟨12, "c.pdf"⟩] (mergeFailureResponse fail) =
        some (MergeFileEntry.id ⟨11, "b.txt"⟩, "File is not a valid PDF.") := by
  exact merge_error_attribution
    [⟨"a.pdf", true⟩, ⟨"b.txt", false⟩, ⟨"c.pdf", true⟩]
    [⟨10, "a.pdf"⟩, ⟨11, "b.txt"⟩, ⟨12, "c.pdf"⟩] 1 ⟨"b.txt", false⟩
    ⟨11, "b.txt"⟩
    (by
      intro j x hj hx
      have hj0 : j = 0 := Nat.lt_one_iff.mp hj
      subst hj0
      injection hx with hx2
      rw [← hx2]
      decide)
    (by decide) (by decide) (by decide)

/-! ## Page-membership lemmas and the remaining claims on addPage -/

theorem mem_flatPages_of_mem {l : List PageGroup} {g : PageGroup} {p : Nat}
    (hg : g ∈ l) (hp : p ∈ g.pages) : p ∈ flatPages l := by
  rw [flatPages]
  exact List.mem_flatten.mpr ⟨g.pages, List.mem_map_of_mem _ hg, hp⟩

theorem flatPages_append (l1 l2 : List PageGroup) :
    flatPages (l1 ++ l2) = flatPages l1 ++ flatPages l2 := by
  simp [flatPages]

/-- C1 counterexample: with page 2 already selected, submitting the
partially overlapping range `1-3` commits the whole group — including the
already-present page 2, which afterwards occurs twice in the flattened
selection — rather than only the non-overlapping pages 1 and 3, and no
feedback distinguishes the added from the already-present subset. -/
theorem addPage_overlap_counterexample :
    addPageStep ⟨[], "2", ""⟩ = ⟨[⟨"2", [2]⟩], "", ""⟩ ∧
    2 ∈ flatPages [⟨"2", [2]⟩] ∧
    addPage [⟨"2", [2]⟩] "1-3" = .added [⟨"1-3", [1, 2, 3]⟩] ∧
    addPageStep ⟨[⟨"2", [2]⟩], "1-3", ""⟩ =
      ⟨[⟨"2", [2]⟩, ⟨"1-3", [1, 2, 3]⟩], "", ""⟩ ∧
    (flatPages [⟨"2", [2]⟩, ⟨"1-3", [1, 2, 3]⟩]).count 2 = 2 := by
  decide

/-- C1 (amended): duplicate handling is per group, not per page.  A
submission all of whose pages are already present fails with an "already
added" error and nothing is merged; on success every accepted group is one
of the parsed groups taken whole — it contains at least one page that was
not yet selected, but its already-present pages are committed with it. -/
theorem addPage_group_filtering (sel : List PageGroup) (input : String)
    (st : ScanState)
    (hscan : scanTokens (tokenize (trimChars input.data)) = .ok st)
    (hg : st.groups ≠ []) :
    ((∀ g ∈ st.groups, ∀ p ∈ g.pages, p ∈ flatPages sel) →
      ∃ e, addPage sel input = .failed e ∧ isAlreadyAddedError e = true) ∧
    (∀ gs, addPage sel input = .added gs →
      ∀ g ∈ gs, g ∈ st.groups ∧ ∃ p ∈ g.pages, p ∉ flatPages sel) := by
  have hne := trim_ne_of_groups hscan hg
  constructor
  · intro hall
    obtain ⟨e, he, hae⟩ := finishAdd_all_present hg hall
    exact ⟨e, by rw [addPage_eq_finishAdd hne hscan, he], hae⟩
  · intro gs hadd g hgmem
    obtain ⟨_, st2, hscan2, _, hgs, _, _⟩ := addPage_added_inv hadd
    have hst : st2 = st := by
      rw [hscan2] at hscan
      exact Except.ok.inj hscan
    rw [hst] at hgs
    rw [hgs, keptOf] at hgmem
    have h1 := List.mem_of_mem_filter hgmem
    have h2 := List.of_mem_filter hgmem
    obtain ⟨p, hp, hdec⟩ := List.any_eq_true.mp h2
    refine ⟨h1, p, hp, ?_⟩
    intro hmem
    exact (of_decide_eq_true hdec) (List.mem_dedup.mpr hmem)

/-- Witness for C1: a fully duplicated range is rejected with an already
added error, and the partially overlapping range `1-3` over `{2}` is
accepted as a whole group that contains a genuinely new page. -/
theorem addPage_group_filtering_witness :
    (∃ e, addPage [⟨"1-3", [1, 2, 3]⟩] "1-3" = .failed e ∧
      isAlreadyAddedError e = true) ∧
    (∀ g ∈ [(⟨"1-3", [1, 2, 3]⟩ : PageGroup)],
      g ∈ (⟨[⟨"1-3", [1, 2, 3]⟩], [3, 2, 1]⟩ : ScanState).groups ∧
      ∃ p ∈ g.pages, p ∉ flatPages [⟨"2", [2]⟩]) := by
  constructor
  · exact (addPage_group_filtering [⟨"1-3", [1, 2, 3]⟩] "1-3"
      ⟨[⟨"1-3", [1, 2, 3]⟩], [3, 2, 1]⟩ rfl (by decide)).1 (by decide)
  · exact (addPage_group_filtering [⟨"2", [2]⟩] "1-3"
      ⟨[⟨"1-3", [1, 2, 3]⟩], [3, 2, 1]⟩ rfl (by decide)).2
      [⟨"1-3", [1, 2, 3]⟩] (by decide)

/-- C2 counterexample: after adding `3` and then the overlapping range
`2-4`, the flattened accumulated selection contains page 3 twice — the
normalized selection is not duplicate-free across groups. -/
theorem addPage_duplicate_counterexample :
    addPageStep ⟨[], "3", ""⟩ = ⟨[⟨"3", [3]⟩], "", ""⟩ ∧
    addPageStep ⟨[⟨"3", [3]⟩], "2-4", ""⟩ =
      ⟨[⟨"3", [3]⟩, ⟨"2-4", [2, 3, 4]⟩], "", ""⟩ ∧
    ¬ (flatPages [⟨"3", [3]⟩, ⟨"2-4", [2, 3, 4]⟩]).Nodup ∧
    (flatPages [⟨"3", [3]⟩, ⟨"2-4", [2, 3, 4]⟩]).count 3 = 2 := by
  decide

/-- C2 (amended): the selection is deterministic in the accumulated state
and the input text, and it is idempotent at the level of the distinct-page
set: resubmitting the text whose groups were just accepted fails with an
"already added" error and leaves both the selection and the input state
unchanged.  The flattened group lists themselves are not duplicate-free:
a partially overlapping group re-commits its already-present pages (see the
counterexample). -/
theorem addPage_resubmit_rejected (sel : List PageGroup) (input : String)
    (gs : List PageGroup) (h : addPage sel input = .added gs) :
    (∃ e, addPage (sel ++ gs) input = .failed e ∧
      isAlreadyAddedError e = true) ∧
    (∀ err, (addPageStep ⟨sel ++ gs, input, err⟩).selectedPages = sel ++ gs ∧
      (addPageStep ⟨sel ++ gs, input, err⟩).pageInput = input) := by
  obtain ⟨hne, st, hscan, hgne, hgs, hgsne, _⟩ := addPage_added_inv h
  have hall : ∀ g ∈ st.groups, ∀ p ∈ g.pages, p ∈ flatPages (sel ++ gs) := by
    intro g hgmem p hp
    rw [flatPages_append]
    by_cases hker : g ∈ keptOf sel st
    · apply List.mem_append_right
      rw [hgs]
      exact mem_flatPages_of_mem hker hp
    · apply List.mem_append_left
      have hnotany :
          ¬ (g.pages.any (fun q => decide (q ∉ (flatPages sel).dedup)) = true) := by
        intro hany
        exact hker (List.mem_filter.mpr ⟨hgmem, hany⟩)
      have hallq : ∀ q ∈ g.pages, q ∈ (flatPages sel).dedup := by
        intro q hq
        by_contra hqn
        exact hnotany (List.any_eq_true.mpr ⟨q, hq, decide_eq_true hqn⟩)
      exact List.mem_dedup.mp (hallq p hp)
  obtain ⟨e, he, hae⟩ := finishAdd_all_present hgne hall
  have haddeq : addPage (sel ++ gs) input = .failed e := by
    rw [addPage_eq_finishAdd hne hscan, he]
  refine ⟨⟨e, haddeq, hae⟩, ?_⟩
  intro err
  have hstep := @addPageStep_failed ⟨sel ++ gs, input, err⟩ _ haddeq
  rw [hstep]
  exact ⟨rfl, rfl⟩

/-- Witness for C2: after `1-3` is accepted into the empty selection,
resubmitting `1-3` is rejected per-group with an already-added error. -/
theorem addPage_resubmit_rejected_witness :
    ∃ e, addPage ([] ++ [⟨"1-3", [1, 2, 3]⟩]) "1-3" = .failed e ∧
      isAlreadyAddedError e = true := by
  exact (addPage_resubmit_rejected [] "1-3" [⟨"1-3", [1, 2, 3]⟩] (by decide)).1

/-- C4: whenever the submitted pages contain at least one page that is not
yet selected and the number of distinct pages of the union of the selection
and the submission exceeds the cap `maxOperationPages = 50`, `addPage` fails
with the too-many-pages error, whose message embeds the limit `50`, and the
selection is not extended (the input text is even retained). -/
theorem addPage_cap_enforced (sel : List PageGroup) (input : String)
    (st : ScanState) (err : String)
    (hscan : scanTokens (tokenize (trimChars input.data)) = .ok st)
    (hnew : ∃ g ∈ st.groups, ∃ p ∈ g.pages, p ∉ flatPages sel)
    (hcap : maxOperationPages < (flatPages sel ++ st.seen).dedup.length) :
    addPage sel input = .failed (.tooManyPages 50) ∧
    errorMessage (.tooManyPages 50) =
      "That" ++ apos ++ "s too many pages! Maximum is " ++ toString 50 ∧
    (∃ pre, errorMessage (.tooManyPages 50) = pre ++ "50") ∧
    addPageStep ⟨sel, input, err⟩ =
      ⟨sel, input, errorMessage (.tooManyPages 50)⟩ := by
  obtain ⟨g, hgmem, p, hp, hpnot⟩ := hnew
  have hgne : st.groups ≠ [] := List.ne_nil_of_mem hgmem
  have hne := trim_ne_of_groups hscan hgne
  have hkept : keptOf sel st ≠ [] := by
    apply List.ne_nil_of_mem (a := g)
    rw [keptOf]
    apply List.mem_filter.mpr
    refine ⟨hgmem, List.any_eq_true.mpr ⟨p, hp, decide_eq_true ?_⟩⟩
    intro hmem
    exact hpnot (List.mem_dedup.mp hmem)
  have htot : totalAfterOf sel st = (flatPages sel ++ st.seen).dedup.length := by
    rw [totalAfterOf]
    exact totalAfter_eq_distinct_card (flatPages sel) st.seen
      (scanTokens_seen_nodup hscan)
  have hcap2 : maxOperationPages < totalAfterOf sel st := by
    rw [htot]
    exact hcap
  have h1 : addPage sel input = .failed (.tooManyPages maxOperationPages) := by
    rw [addPage_eq_finishAdd hne hscan, finishAdd_too_many hkept hcap2]
  refine ⟨h1, rfl, ⟨"That" ++ apos ++ "s too many pages! Maximum is ", by decide⟩, ?_⟩
  exact @addPageStep_failed ⟨sel, input, err⟩ _ h1

/-- Witness for C4: with 48 pages selected, submitting `49-51` makes 51
distinct pages and is rejected with the too-many error reporting 50. -/
theorem addPage_cap_enforced_witness :
    addPage [⟨"1-48", List.range' 1 48⟩] "49-51" = .failed (.tooManyPages 50) ∧
    (∃ pre, errorMessage (.tooManyPages 50) = pre ++ "50") := by
  have h := addPage_cap_enforced [⟨"1-48", List.range' 1 48⟩] "49-51"
    ⟨[⟨"49-51", [49, 50, 51]⟩], [51, 50, 49]⟩ ""
    rfl (by decide) (by decide)
  exact ⟨h.1, h.2.2.1⟩

/-! ## Token patterns and classification (claims C6 and C7) -/

/-- The regular expression `^\d+$` as a predicate. -/
def matchesSinglePage (t : List Char) : Prop :=
  t ≠ [] ∧ ∀ c ∈ t, c.isDigit = true

instance decidableMatchesSinglePage (t : List Char) :
    Decidable (matchesSinglePage t) :=
  decidable_of_iff (t ≠ [] ∧ ∀ c ∈ t, c.isDigit = true) Iff.rfl

/-- The regular expression `^\d+-\d+$` as a predicate. -/
def matchesRangeToken (t : List Char) : Prop :=
  ∃ a b, t = a ++ '-' :: b ∧ a ≠ [] ∧ b ≠ [] ∧
    (∀ c ∈ a, c.isDigit = true) ∧ (∀ c ∈ b, c.isDigit = true)

theorem isDigits_of_pattern {t : List Char} (h : matchesSinglePage t) :
    isDigits t = true := by
  obtain ⟨hne, hd⟩ := h
  simp [isDigits, isEmpty_false_of_ne_nil hne]
  exact hd

theorem pattern_of_isDigits {t : List Char} (h : isDigits t = true) :
    matchesSinglePage t := by
  rw [isDigits, Bool.and_eq_true] at h
  refine ⟨?_, List.all_eq_true.mp h.2⟩
  intro hcon
  rw [hcon] at h
  simp at h

theorem digit_not_dash {c : Char} (h : c.isDigit = true) :
    (c == '-') = false := by
  cases hbeq : c == '-' with
  | false => rfl
  | true =>
    rw [eq_of_beq hbeq] at h
    exact absurd h (by decide)

theorem isDigits_range_false {a b : List Char} :
    isDigits (a ++ '-' :: b) = false := by
  have hall : (a ++ '-' :: b).all Char.isDigit = false :=
    List.all_eq_false.mpr ⟨'-', by simp, by decide⟩
  simp [isDigits, hall]

theorem splitOnDash_range {a b : List Char}
    (hda : ∀ c ∈ a, c.isDigit = true) (hdb : ∀ c ∈ b, c.isDigit = true) :
    splitOnDash (a ++ '-' :: b) = [a, b] := by
  apply splitSep_sep_free rfl
  · intro c hc
    exact digit_not_dash (hda c hc)
  · intro c hc
    exact digit_not_dash (hdb c hc)

theorem not_matchesRange_of_no_dash {t : List Char}
    (h : ∀ c ∈ t, (c == '-') = false) : ¬ matchesRangeToken t := by
  rintro ⟨a, b, heq, -, -, -, -⟩
  have hmem : ('-' : Char) ∈ t := by
    rw [heq]
    exact List.mem_append_right _ (List.mem_cons_self _ _)
  have := h '-' hmem
  simp at this

/-- The validation of a range token with explicit digit halves: bounds below
one fail with the positivity error, and a descending range (with both bounds
at least one) fails with the must-ascend error. -/
theorem processToken_range_bounds {st : ScanState} {a b : List Char}
    (hda : ∀ c ∈ a, c.isDigit = true) (hdb : ∀ c ∈ b, c.isDigit = true)
    (hane : a ≠ []) (hbne : b ≠ []) :
    (digitsToNat a = 0 ∨ digitsToNat b = 0 →
      processToken st (a ++ '-' :: b) = .error .invalidRange) ∧
    (1 ≤ digitsToNat a → 1 ≤ digitsToNat b → digitsToNat b < digitsToNat a →
      processToken st (a ++ '-' :: b) = .error .descendingRange) := by
  have hnd := isDigits_range_false (a := a) (b := b)
  have hsplit := splitOnDash_range hda hdb
  have hia : isDigits a = true := isDigits_of_pattern ⟨hane, hda⟩
  have hib : isDigits b = true := isDigits_of_pattern ⟨hbne, hdb⟩
  constructor
  · intro h0
    rcases h0 with h0 | h0 <;>
      simp [processToken, hnd, hsplit, hia, hib, Nat.lt_one_iff, h0]
  · intro h1 h2 h3
    simp [processToken, hnd, hsplit, hia, hib, Nat.lt_one_iff,
      Nat.not_lt.mpr h1, Nat.not_lt.mpr h2, h3, Nat.pos_iff_ne_zero]

/-- A token matching neither pattern is rejected as unrecognized, whatever
the loop state. -/
theorem processToken_unrecognized {st : ScanState} {t : List Char}
    (h1 : ¬ matchesSinglePage t) (h2 : ¬ matchesRangeToken t) :
    processToken st t = .error .unrecognizedToken := by
  have hd : isDigits t = false := by
    cases ht : isDigits t with
    | false => rfl
    | true => exact absurd (pattern_of_isDigits ht) h1
  cases hsplit : splitOnDash t with
  | nil => simp [processToken, hd, hsplit]
  | cons a rest =>
    cases rest with
    | nil => simp [processToken, hd, hsplit]
    | cons b rest2 =>
      cases rest2 with
      | nil =>
        by_cases hab : (isDigits a && isDigits b) = true
        · exfalso
          apply h2
          rw [Bool.and_eq_true] at hab
          have hcore : splitSepCore (fun c => c == '-') t = (a, [b]) := by
            have hs := hsplit
            rw [splitOnDash, splitSep] at hs
            have h1 := (List.cons.injEq _ _ _ _).mp hs
            rcases hr : splitSepCore (fun c => c == '-') t with ⟨r1, r2⟩
            rw [hr] at h1
            simp at h1
            rw [h1.1, h1.2]
          obtain ⟨d, hdd, hteq⟩ := splitSepCore_two hcore
          have hdc : d = '-' := eq_of_beq hdd
          obtain ⟨hane, hda⟩ := pattern_of_isDigits hab.1
          obtain ⟨hbne, hdb⟩ := pattern_of_isDigits hab.2
          exact ⟨a, b, by rw [hteq, hdc], hane, hbne, hda, hdb⟩
        · simp [processToken, hd, hsplit, hab]
      | cons u rest3 => simp [processToken, hd, hsplit]

/-- A single-page token (value at least one) is accepted: it contributes the
group `String(n)` with the single page `n` when the page is new in this
submission and is skipped as an in-submission duplicate otherwise. -/
theorem processToken_single {st : ScanState} {t : List Char}
    (hm : matchesSinglePage t) (h1 : 1 ≤ digitsToNat t) :
    processToken st t =
      (if digitsToNat t ∈ st.seen then .ok st
       else .ok ⟨st.groups ++ [⟨toString (digitsToNat t), [digitsToNat t]⟩],
         digitsToNat t :: st.seen⟩) := by
  have hd := isDigits_of_pattern hm
  simp [processToken, hd, Nat.lt_one_iff, Nat.pos_iff_ne_zero.mp h1]

/-- A single-page token with value `0` fails the positivity check. -/
theorem processToken_single_zero {st : ScanState} {t : List Char}
    (hm : matchesSinglePage t) (h0 : digitsToNat t = 0) :
    processToken st t = .error .invalidPage := by
  have hd := isDigits_of_pattern hm
  simp [processToken, hd, Nat.lt_one_iff, h0]

/-- An unrecognized token anywhere in the submission makes the whole
`addPage` call fail. -/
theorem addPage_fails_of_unrecognized_mem {sel : List PageGroup}
    {input : String} {t : List Char}
    (hmem : t ∈ tokenize (trimChars input.data))
    (h1 : ¬ matchesSinglePage t) (h2 : ¬ matchesRangeToken t) :
    ∃ e, addPage sel input = .failed e := by
  have hne : (trimChars input.data).isEmpty = false := by
    cases he : trimChars input.data with
    | nil => rw [he, tokenize_nil] at hmem; cases hmem
    | cons c cs => rfl
  obtain ⟨pre, post, hsplit⟩ := List.append_of_mem hmem
  cases hpre : scanFrom initialScanState pre with
  | error e =>
    refine ⟨e, addPage_eq_failed_of_scan hne ?_⟩
    rw [scanTokens, hsplit, scanFrom_append, hpre]
    rfl
  | ok st1 =>
    refine ⟨.unrecognizedToken, addPage_eq_failed_of_scan hne ?_⟩
    rw [scanTokens, hsplit, scanFrom_append, hpre]
    show scanFrom st1 (t :: post) = _
    rw [scanFrom_cons, processToken_unrecognized h1 h2]
    rfl

/-- C6: a range token requires both bounds at least one — a bound below one
fails with the positivity error — and, with valid bounds, requires the end
not below the start: a descending range fails the whole submission with the
must-ascend message, the selection is never extended with a silently
reordered range, and the input text is kept. -/
theorem range_token_validation (sel : List PageGroup) (input : String)
    (st : ScanState) (pre rest : List (List Char)) (a b : List Char)
    (err : String)
    (hda : ∀ c ∈ a, c.isDigit = true) (hdb : ∀ c ∈ b, c.isDigit = true)
    (hane : a ≠ []) (hbne : b ≠ [])
    (htok : tokenize (trimChars input.data) = pre ++ (a ++ '-' :: b) :: rest)
    (hpre : scanFrom initialScanState pre = .ok st) :
    (digitsToNat a = 0 ∨ digitsToNat b = 0 →
      addPage sel input = .failed .invalidRange) ∧
    (1 ≤ digitsToNat a → 1 ≤ digitsToNat b → digitsToNat b < digitsToNat a →
      addPage sel input = .failed .descendingRange ∧
      addPageStep ⟨sel, input, err⟩ =
        ⟨sel, input, "Range should go from low to high (e.g., 2-6, not 6-2)"⟩) := by
  have hne : (trimChars input.data).isEmpty = false := by
    cases he : trimChars input.data with
    | nil =>
      rw [he, tokenize_nil] at htok
      exact absurd htok (by simp)
    | cons c cs => rfl
  have hscan : ∀ e2, processToken st (a ++ '-' :: b) = .error e2 →
      scanTokens (tokenize (trimChars input.data)) = .error e2 := by
    intro e2 hp
    rw [scanTokens, htok, scanFrom_append, hpre]
    show scanFrom st ((a ++ '-' :: b) :: rest) = _
    rw [scanFrom_cons, hp]
    rfl
  obtain ⟨hb1, hb2⟩ := @processToken_range_bounds st _ _ hda hdb hane hbne
  constructor
  · intro h0
    exact addPage_eq_failed_of_scan hne (hscan _ (hb1 h0))
  · intro h1 h2 h3
    have hfail := @addPage_eq_failed_of_scan sel _ _ hne
      (hscan _ (hb2 h1 h2 h3))
    exact ⟨hfail, @addPageStep_failed ⟨sel, input, err⟩ _ hfail⟩

/-- Witness for C6: the submission `1,6-2` fails on the descending range
`6-2` with the must-ascend message, and nothing (not even the valid `1`) is
committed. -/
theorem range_token_validation_witness :
    addPage [] "1,6-2" = .failed .descendingRange ∧
    addPageStep ⟨[], "1,6-2", ""⟩ =
      ⟨[], "1,6-2", "Range should go from low to high (e.g., 2-6, not 6-2)"⟩ := by
  have h := range_token_validation [] "1,6-2" ⟨[⟨"1", [1]⟩], [1]⟩
    [['1']] [] ['6'] ['2'] ""
    (by decide) (by decide) (by decide) (by decide) rfl rfl
  exact h.2 (by decide) (by decide) (by decide)

/-- C7: the tokenizer splits the input on commas and whitespace — every
token is nonempty and separator-free, and joining the tokens restores
exactly the non-separator characters; a token matching `^\d+$` with value at
least one is accepted as that single page; value zero fails the positivity
check; a token matching neither the single-page nor the range pattern fails
with the unrecognized-token error, and its mere presence in the submission
makes the whole `addPage` call fail. -/
theorem tokenizer_and_classification (cs : List Char) (st : ScanState)
    (t : List Char) (sel : List PageGroup) (input : String) :
    ((tokenize cs).flatten = cs.filter (fun c => !isSepChar c) ∧
      ∀ u ∈ tokenize cs, u ≠ [] ∧ ∀ c ∈ u, isSepChar c = false) ∧
    (matchesSinglePage t → 1 ≤ digitsToNat t →
      processToken st t =
        (if digitsToNat t ∈ st.seen then .ok st
         else .ok ⟨st.groups ++ [⟨toString (digitsToNat t), [digitsToNat t]⟩],
           digitsToNat t :: st.seen⟩)) ∧
    (matchesSinglePage t → digitsToNat t = 0 →
      processToken st t = .error .invalidPage) ∧
    (¬ matchesSinglePage t → ¬ matchesRangeToken t →
      processToken st t = .error .unrecognizedToken ∧
      (t ∈ tokenize (trimChars input.data) →
        ∃ e, addPage sel input = .failed e)) := by
  refine ⟨⟨tokenize_flatten cs, fun u hu => tokenize_mem u cs hu⟩, ?_, ?_, ?_⟩
  · intro hm h1
    exact processToken_single hm h1
  · intro hm h0
    exact processToken_single_zero hm h0
  · intro h1 h2
    exact ⟨processToken_unrecognized h1 h2,
      fun hmem => addPage_fails_of_unrecognized_mem hmem h1 h2⟩

/-- Witness for C7: on the input `1, 2` the tokens are `1` and `2`; the
digit token `7` is accepted as a fresh single page; the token `x` is
unrecognized and sinks the submission `1,x`. -/
theorem tokenizer_and_classification_witness :
    (tokenize " 1, 2".data).flatten =
      (" 1, 2".data.filter (fun c => !isSepChar c)) ∧
    processToken initialScanState ['7'] =
      (if digitsToNat ['7'] ∈ initialScanState.seen then .ok initialScanState
       else .ok ⟨initialScanState.groups ++
         [⟨toString (digitsToNat ['7']), [digitsToNat ['7']]⟩],
         digitsToNat ['7'] :: initialScanState.seen⟩) ∧
    processToken initialScanState ['x'] = .error .unrecognizedToken ∧
    (∃ e, addPage [] "1,x" = .failed e) := by
  have h7 := tokenizer_and_classification " 1, 2".data initialScanState
    ['7'] [] "1,x"
  have hx := tokenizer_and_classification " 1, 2".data initialScanState
    ['x'] [] "1,x"
  have hxu := hx.2.2.2 (by decide)
    (not_matchesRange_of_no_dash (by decide))
  exact ⟨h7.1.1, h7.2.1 (by decide) (by decide), hxu.1, hxu.2 (by decide)⟩

end QuickPDF
